import Mathlib

/-!
# Verification of `tools/dictionaries/generate_kannada_dictionary.py`

A shallow embedding of the dictionary-generation pipeline: entry
extraction from the Alar lexicon, occurrence counting, seed-list
cleaning, candidate ranking, merge with the pinned seed prefix,
frequency interpolation, and the serialisation step.

Modelling conventions:
* Python strings are Lean `String`s / `List Char`; `len` is the
  code-point count, matching Python.
* Python `int` is `Int`; list slicing `l[:n]` (including negative `n`)
  is `pySliceTo`.
* `collections.Counter` is an association list `List (String × Nat)` in
  insertion order; `counter[w] += 1` is `bump`.
* Python's stable `list.sort` with a key is `List.insertionSort` with
  the corresponding total comparison; the sort key used here is
  injective on the candidate pairs, so any correct sort agrees.
* Float arithmetic in `assign_frequencies` is modelled with exact
  rationals, and Python's `round` (round-half-to-even) is `pyRound`.
* Lines handed to the line-oriented readers are the results of
  splitting the file on newlines (no trailing newline in a line).
-/

/-! ## Character classes and small Python string helpers -/

/-- Lower bound of the Kannada code-point range (`KANNADA_RANGE[0]`, U+0C80). -/
def KANNADA_LO : Char := Char.ofNat 0x0C80

/-- Upper bound of the Kannada code-point range (`KANNADA_RANGE[1]`, U+0CFF). -/
def KANNADA_HI : Char := Char.ofNat 0x0CFF

/-- The single-quote character. -/
def squote : Char := Char.ofNat 39

/-- The double-quote character. -/
def dquote : Char := Char.ofNat 34

/-- Zero-width non-joiner (U+200C), removed by `extract_word`. -/
def zwnj : Char := Char.ofNat 0x200C

/-- Zero-width joiner (U+200D), removed by `extract_word`. -/
def zwj : Char := Char.ofNat 0x200D

/-- A character inside the Kannada script range (used by `extract_word`). -/
def isKannada (c : Char) : Bool := decide (KANNADA_LO ≤ c) && decide (c ≤ KANNADA_HI)

/-- ASCII core of the whitespace class stripped by Python's `str.strip`
and matched by `\s` in the entry pattern. -/
def pySpace (c : Char) : Bool :=
  c == ' ' || c == '\t' || c == '\n' || c == '\r' || c == Char.ofNat 0x0B || c == Char.ofNat 0x0C

/-- Python `str.strip()`: drop whitespace from both ends. -/
def pyStrip (l : List Char) : List Char :=
  ((l.dropWhile pySpace).reverse.dropWhile pySpace).reverse

/-- Python `s.rsplit(" ", 1)` restricted to the information the seed
loader uses: `none` when the string holds no space (one part), and the
two parts split at the last space otherwise. -/
def rsplitSpace (l : List Char) : Option (List Char × List Char) :=
  if ' ' ∈ l then
    let r := l.reverse
    some (((r.dropWhile (fun c => !(c == ' '))).tail).reverse,
          (r.takeWhile (fun c => !(c == ' '))).reverse)
  else none

/-- Python list slice `l[:n]` for an arbitrary integer bound `n`:
nonnegative `n` keeps the first `n` elements, negative `n` drops the
last `-n`. -/
def pySliceTo {α : Type} (n : Int) (l : List α) : List α :=
  if 0 ≤ n then l.take n.toNat else l.take (l.length - (-n).toNat)

/-! ## Seed loader: `clean_existing_words` -/

/-- One iteration of the loop body of `clean_existing_words`: parse a
line of the existing dictionary into a validated word, or `none` when
the line is skipped (blank, comment, malformed, non-Kannada, or too
short).  Deduplication against `seen` happens in `cleanLoop`. -/
def parseSeedLine (line : String) : Option String :=
  let stripped := pyStrip line.data
  if stripped = [] then none
  else if stripped.head? = some '#' then none
  else
    match rsplitSpace stripped with
    | none => none
    | some (before, _) =>
      let word := pyStrip before
      if word = [] then none
      else if word.any (fun ch => decide (ch < KANNADA_LO) || decide (KANNADA_HI < ch)) then none
      else if word.length < 2 then none
      else some (String.mk word)

/-- The fold of `clean_existing_words` over its lines, carrying the
`seen` set (as a list) used for first-seen-order deduplication. -/
def cleanLoop : List String → List String → List String
  | [], _ => []
  | line :: rest, seen =>
    match parseSeedLine line with
    | none => cleanLoop rest seen
    | some w => if w ∈ seen then cleanLoop rest seen else w :: cleanLoop rest (w :: seen)

/-- `clean_existing_words`, as a function of the lines of the existing
dictionary file (a missing file is the empty line list). -/
def clean_existing_words (lines : List String) : List String :=
  cleanLoop lines []

/-! ## Entry extractor: `extract_word` and the entry pattern -/

/-- Does the list start with a YAML quote character (`startswith(("'", '"'))`)? -/
def startsQuote (l : List Char) : Bool :=
  match l.head? with
  | some c => c == squote || c == dquote
  | none => false

/-- Does the list end with a YAML quote character (`endswith(("'", '"'))`)? -/
def endsQuote (l : List Char) : Bool :=
  match l.getLast? with
  | some c => c == squote || c == dquote
  | none => false

/-- The quote-removal step of `extract_word`: `raw[1:-1]` when the raw
value both starts and ends with a quote character (possibly different
ones), the value unchanged otherwise. -/
def stripYamlQuotes (l : List Char) : List Char :=
  if startsQuote l && endsQuote l then (l.drop 1).dropLast else l

/-- The zero-width-mark removal of `extract_word`
(`.replace("‌", "").replace("‍", "")`). -/
def removeZeroWidth (l : List Char) : List Char :=
  l.filter (fun c => !(c == zwnj || c == zwj))

/-- The part of `extract_word` that runs after YAML-quote removal:
strip whitespace, remove zero-width marks, take the longest leading run
of Kannada characters, strip it, and enforce the length-2 floor. -/
def postQuoteProcess (l : List Char) : Option String :=
  let r := removeZeroWidth (pyStrip l)
  if r = [] then none
  else
    let word := pyStrip (r.takeWhile isKannada)
    if word.length < 2 then none else some (String.mk word)

/-- `extract_word`: headword extraction from one captured entry value. -/
def extract_word (raw : String) : Option String :=
  postQuoteProcess (stripYamlQuotes raw.data)

/-- The entry record pattern `^\s*entry:\s*(.+)$` applied to one line
(without its trailing newline): `some v` with the captured group when
the line matches, `none` otherwise.  The greedy `\s*` leaves the
remainder with leading whitespace stripped; when the remainder is
nonempty but all whitespace, backtracking hands `(.+)` exactly the last
character. -/
def matchEntry (line : String) : Option String :=
  let s := line.data.dropWhile pySpace
  if s.take 6 = "entry:".data then
    let r := s.drop 6
    let v := r.dropWhile pySpace
    if v ≠ [] then some (String.mk v)
    else
      match r.getLast? with
      | some c => some (String.mk [c])
      | none => none
  else none

/-! ## Frequency counter: `load_word_counts` -/

/-- `counter[w] += 1` on a `collections.Counter` kept as an association
list in insertion order: increment an existing key in place, or append
the new key with count 1. -/
def bump (c : List (String × Nat)) (w : String) : List (String × Nat) :=
  if w ∈ c.map Prod.fst then
    c.map (fun p => if p.1 = w then (p.1, p.2 + 1) else p)
  else c ++ [(w, 1)]

/-- The loop body of `load_word_counts`: a line matching the entry
pattern whose captured value yields a token bumps that token's count;
every other line leaves the counter unchanged. -/
def countStep (c : List (String × Nat)) (line : String) : List (String × Nat) :=
  match matchEntry line with
  | none => c
  | some v =>
    match extract_word v with
    | none => c
    | some w => bump c w

/-- `load_word_counts`, as a function of the source file's lines. -/
def load_word_counts (lines : List String) : List (String × Nat) :=
  lines.foldl countStep []

/-! ## Ranker: `filter_ranked_words` -/

/-- The comparison realising Python's sort key
`(-count, len(word), word)`: count descending, then character length
ascending, then lexical order of the word. -/
def rankLE (a b : String × Nat) : Bool :=
  if a.2 ≠ b.2 then decide (b.2 < a.2)
  else if a.1.length ≠ b.1.length then decide (a.1.length < b.1.length)
  else decide (a.1 ≤ b.1)

/-- `filter_ranked_words`: drop banned words and words outside the
length bounds, sort by the composite key, keep the first `keep`.
Python's stable sort is modelled with insertion sort; the sort key
`(-count, len(word), word)` is injective on the candidate pairs (the
counter's keys are distinct), so every correct sort — stable or not —
produces the same list. -/
def filter_ranked_words (counter : List (String × Nat)) (banned : List String)
    (keep : Int) (min_len max_len : Int) : List String :=
  let candidates := counter.filter
    (fun p => decide (p.1 ∉ banned ∧ min_len ≤ (p.1.length : Int) ∧ (p.1.length : Int) ≤ max_len))
  (pySliceTo keep (candidates.insertionSort (fun a b => rankLE a b = true))).map Prod.fst

/-! ## Frequency assigner: `assign_frequencies` -/

/-- Python's built-in `round` on an exact rational: round to the
nearest integer, ties to the even neighbour. -/
def pyRound (q : ℚ) : ℤ :=
  if q - ⌊q⌋ < 1 / 2 then ⌊q⌋
  else if 1 / 2 < q - ⌊q⌋ then ⌊q⌋ + 1
  else if ⌊q⌋ % 2 = 0 then ⌊q⌋ else ⌊q⌋ + 1

/-- `assign_frequencies`: linear interpolation of integer frequencies
from `start` down to `minimum` across the word positions, with the
per-position clamp `max(minimum, freq)`.  The Python float expression
`round(start - (idx / (L - 1)) * (start - minimum))` is modelled with
exact rational arithmetic. -/
def assign_frequencies (words : List String) (start minimum : Int) : List Int :=
  if words = [] then []
  else if words.length = 1 then [start]
  else
    (List.range words.length).map (fun (idx : ℕ) =>
      max minimum
        (pyRound ((start : ℚ) -
          (((idx : ℕ) : ℚ) / ((words.length - 1 : ℕ) : ℚ)) * ((start : ℚ) - (minimum : ℚ)))))

/-! ## Pipeline orchestration: the body of `main` -/

/-- The configuration parameters of the script (Python `int`s). -/
structure Config where
  target_count : Int
  min_length : Int
  max_length : Int
  start_frequency : Int
  min_frequency : Int
  seed_limit : Int

/-- The defaults of the argument parser. -/
def defaultConfig : Config :=
  { target_count := 10000, min_length := 2, max_length := 16,
    start_frequency := 5000, min_frequency := 200, seed_limit := 600 }

/-- `seed_words = existing_words[: args.seed_limit]` in `main`. -/
def mainSeedWords (cfg : Config) (existing : List String) : List String :=
  pySliceTo cfg.seed_limit existing

/-- `seed_set = {word for word in seed_words if len(word) >= args.min_length}`
in `main`, kept as a duplicate-free list. -/
def mainSeedSet (cfg : Config) (existing : List String) : List String :=
  ((mainSeedWords cfg existing).filter
    (fun w => decide (cfg.min_length ≤ (w.length : Int)))).dedup

/-- The `keep = max(required, 0)` quota handed to `filter_ranked_words`
by `main`, where `required = args.target_count - len(seed_set)`. -/
def mainKeep (cfg : Config) (existing : List String) : Int :=
  max (cfg.target_count - ((mainSeedSet cfg existing).length : Int)) 0

/-- The `ranked_words` list computed by `main`. -/
def mainRanked (cfg : Config) (counter : List (String × Nat)) (existing : List String) :
    List String :=
  filter_ranked_words counter (mainSeedSet cfg existing) (mainKeep cfg existing)
    cfg.min_length cfg.max_length

/-- The final `total_words` list of `main`: seed prefix, then ranked
words not in the seed set, truncated to `target_count`. -/
def mainWords (cfg : Config) (counter : List (String × Nat)) (existing : List String) :
    List String :=
  pySliceTo cfg.target_count
    (mainSeedWords cfg existing ++
      (mainRanked cfg counter existing).filter
        (fun w => decide (w ∉ mainSeedSet cfg existing)))

/-- The whole pipeline from the source file's lines and the existing
dictionary file's lines to the final word sequence. -/
def mainTotalWords (cfg : Config) (srcLines seedLines : List String) : List String :=
  mainWords cfg (load_word_counts srcLines) (clean_existing_words seedLines)

/-! ## Writer: `write_dictionary` -/

/-- The header block emitted by `write_dictionary` (the dedented
f-string, with the entry count interpolated). -/
def dictionaryHeader (total : Nat) : String :=
  "# Kannada Dictionary\n" ++
  "# Format: word frequency\n" ++
  "# Auto-generated via tools/dictionaries/generate_kannada_dictionary.py\n" ++
  "# Source: Alar Kannada-English Dictionary (OdBL) — https://github.com/alar-dict/data\n" ++
  "# Total entries: " ++ toString total ++ "\n"

/-- The sequence of chunks `write_dictionary` writes, in order: the
header plus a blank line, then one `"word freq\n"` line per zipped
(word, frequency) pair. -/
def writeChunks (words : List String) (freqs : List Int) (total : Nat) : List String :=
  (dictionaryHeader total ++ "\n") ::
    (words.zip freqs).map (fun p => p.1 ++ " " ++ toString p.2 ++ "\n")

/-- Model of running `write_dictionary` against a destination that
previously held `prior`.  `open(path, "w")` truncates the file as soon
as it succeeds, and the chunks are then written one at a time:
`failStep = none` means every step succeeds; `failStep = some 0` means
opening itself fails (the file keeps its prior content); and
`failStep = some (k+1)` means the open succeeded and the failure hits
after exactly `k` chunks were written.  The Boolean records whether the
run succeeded; on failure the exception propagates to the caller. -/
def runWrite (prior : String) (chunks : List String) (failStep : Option Nat) :
    String × Bool :=
  match failStep with
  | none => (String.join chunks, true)
  | some 0 => (prior, false)
  | some (k + 1) => (String.join (chunks.take k), false)

/-! ## Concrete inputs used in the analysis -/

/-- A YAML-quoted captured entry value: `'ಮನೆ'` (with single quotes). -/
def quotedValue : String := String.mk ([squote] ++ "ಮನೆ".data ++ [squote])

/-- A complete source line carrying `quotedValue`. -/
def quotedLine : String := String.mk ("entry: ".data ++ quotedValue.data)

/-! ## General helper lemmas -/

/-- The Python slice `l[:n]` is always a `take`, hence a sublist. -/
theorem pySliceTo_sublist {α : Type} (n : Int) (l : List α) :
    (pySliceTo n l).Sublist l := by
  unfold pySliceTo
  split <;> exact List.take_sublist _ _

/-- Stripping whitespace never lengthens a character list. -/
theorem pyStrip_length_le (l : List Char) : (pyStrip l).length ≤ l.length := by
  unfold pyStrip
  rw [List.length_reverse]
  calc ((l.dropWhile pySpace).reverse.dropWhile pySpace).length
      ≤ (l.dropWhile pySpace).reverse.length := (List.dropWhile_sublist _).length_le
    _ = (l.dropWhile pySpace).length := List.length_reverse _
    _ ≤ l.length := (List.dropWhile_sublist _).length_le

/-- The seed-loader fold produces a duplicate-free list whose members
avoid the `seen` accumulator. -/
theorem cleanLoop_spec (lines : List String) : ∀ seen : List String,
    (cleanLoop lines seen).Nodup ∧ ∀ w ∈ cleanLoop lines seen, w ∉ seen := by
  induction lines with
  | nil =>
    intro seen
    constructor
    · exact List.nodup_nil
    · intro w hw
      simp [cleanLoop] at hw
  | cons line rest ih =>
    intro seen
    unfold cleanLoop
    cases hp : parseSeedLine line with
    | none => exact ih seen
    | some w =>
      show (if w ∈ seen then cleanLoop rest seen else w :: cleanLoop rest (w :: seen)).Nodup ∧
        ∀ x ∈ (if w ∈ seen then cleanLoop rest seen else w :: cleanLoop rest (w :: seen)),
          x ∉ seen
      by_cases hmem : w ∈ seen
      · rw [if_pos hmem]
        exact ih seen
      · rw [if_neg hmem]
        obtain ⟨hnd, hnotin⟩ := ih (w :: seen)
        constructor
        · exact List.nodup_cons.mpr
            ⟨fun hw => hnotin w hw (List.mem_cons_self w seen), hnd⟩
        · intro x hx
          rcases List.mem_cons.mp hx with rfl | hx'
          · exact hmem
          · exact fun hxseen => hnotin x hx' (List.mem_cons_of_mem _ hxseen)

/-- The cleaned existing word list holds no duplicates. -/
theorem clean_existing_words_nodup (lines : List String) :
    (clean_existing_words lines).Nodup :=
  (cleanLoop_spec lines []).1

/-- `String.join` distributes over list append. -/
theorem string_join_append (l₁ l₂ : List String) :
    String.join (l₁ ++ l₂) = String.join l₁ ++ String.join l₂ := by
  apply String.ext
  simp [String.data_join, String.data_append]

/-- Python's `round` agrees with the identity on integers. -/
theorem pyRound_intCast (n : ℤ) : pyRound (n : ℚ) = n := by
  unfold pyRound
  rw [Int.floor_intCast, if_pos (by norm_num)]

/-- Python's `round` (half-to-even) is a monotone function. -/
theorem pyRound_mono {x y : ℚ} (h : x ≤ y) : pyRound x ≤ pyRound y := by
  have hf : ⌊x⌋ ≤ ⌊y⌋ := Int.floor_mono h
  unfold pyRound
  rcases eq_or_lt_of_le hf with heq | hlt
  · have hc : ((⌊x⌋ : ℤ) : ℚ) = ((⌊y⌋ : ℤ) : ℚ) := by exact_mod_cast heq
    have hr : x - ((⌊x⌋ : ℤ) : ℚ) ≤ y - ((⌊y⌋ : ℤ) : ℚ) := by
      rw [← hc]; exact sub_le_sub_right h _
    split_ifs <;> first | omega | (exfalso; linarith)
  · split_ifs <;> omega

/-- `pyRound` never exceeds an integer upper bound of its argument. -/
theorem pyRound_le_intCast {q : ℚ} {n : ℤ} (h : q ≤ (n : ℚ)) : pyRound q ≤ n := by
  have h2 := pyRound_mono h
  rwa [pyRound_intCast] at h2

/-- The clamped interpolation step of `assign_frequencies` is antitone
in the position index, over the full index range. -/
theorem interp_step_antitone (start minimum : ℤ) (d : ℕ) (hd : 0 < d)
    {i j : ℕ} (hij : i ≤ j) (hj : j ≤ d) :
    max minimum (pyRound ((start : ℚ) - ((j : ℚ) / (d : ℚ)) * ((start : ℚ) - (minimum : ℚ)))) ≤
      max minimum (pyRound ((start : ℚ) - ((i : ℚ) / (d : ℚ)) * ((start : ℚ) - (minimum : ℚ)))) := by
  have hdq : (0 : ℚ) < (d : ℚ) := by exact_mod_cast hd
  rcases le_or_lt (minimum : ℚ) (start : ℚ) with hms | hsm
  · have hfrac : ((i : ℚ) / (d : ℚ)) ≤ ((j : ℚ) / (d : ℚ)) := by
      apply (div_le_div_iff_of_pos_right hdq).mpr
      exact_mod_cast hij
    have hs : (0 : ℚ) ≤ (start : ℚ) - (minimum : ℚ) := sub_nonneg.mpr hms
    have hmul := mul_le_mul_of_nonneg_right hfrac hs
    exact max_le_max le_rfl (pyRound_mono (by linarith))
  · have key : ∀ k : ℕ, k ≤ d →
        max minimum (pyRound ((start : ℚ) - ((k : ℚ) / (d : ℚ)) * ((start : ℚ) - (minimum : ℚ))))
          = minimum := by
      intro k hk
      have hfr1 : (k : ℚ) / (d : ℚ) ≤ 1 := by
        rw [div_le_one hdq]; exact_mod_cast hk
      have harg : (start : ℚ) - ((k : ℚ) / (d : ℚ)) * ((start : ℚ) - (minimum : ℚ)) ≤
          (minimum : ℚ) := by
        nlinarith [mul_nonneg (sub_nonneg.mpr hfr1) (sub_nonneg.mpr (le_of_lt hsm))]
      exact max_eq_left (pyRound_le_intCast harg)
    rw [key j hj, key i (le_trans hij hj)]

/-- Head of a mapped index range. -/
theorem head?_map_range {α : Type} (f : ℕ → α) (L : ℕ) (h : 0 < L) :
    ((List.range L).map f).head? = some (f 0) := by
  obtain ⟨n, rfl⟩ : ∃ n, L = n + 1 := ⟨L - 1, by omega⟩
  rw [List.range_succ_eq_map]
  rfl

/-- Last element of a mapped index range. -/
theorem getLast?_map_range {α : Type} (f : ℕ → α) (L : ℕ) (h : 0 < L) :
    ((List.range L).map f).getLast? = some (f (L - 1)) := by
  obtain ⟨n, rfl⟩ : ∃ n, L = n + 1 := ⟨L - 1, by omega⟩
  rw [List.range_succ, List.map_append]
  simp

/-! ## Claim C3: Scenario A -/

/-- C3 (confirmed): with counts {ಮನೆ ↦ 5, ಮನಸ್ಸು ↦ 3, ಕೆಲಸ ↦ 5}, an empty
seed list, target_count 2, start_frequency 100 and min_frequency 10,
the pipeline outputs ["ಮನೆ", "ಕೆಲಸ"] — the count-5 tie is broken toward
the shorter word — with frequencies [100, 10]. -/
theorem scenario_a :
    mainWords ⟨2, 2, 16, 100, 10, 600⟩ [("ಮನೆ", 5), ("ಮನಸ್ಸು", 3), ("ಕೆಲಸ", 5)] [] =
      ["ಮನೆ", "ಕೆಲಸ"] ∧
    assign_frequencies
      (mainWords ⟨2, 2, 16, 100, 10, 600⟩ [("ಮನೆ", 5), ("ಮನಸ್ಸು", 3), ("ಕೆಲಸ", 5)] [])
      100 10 = [100, 10] := by
  have hw : mainWords ⟨2, 2, 16, 100, 10, 600⟩ [("ಮನೆ", 5), ("ಮನಸ್ಸು", 3), ("ಕೆಲಸ", 5)] [] =
      ["ಮನೆ", "ಕೆಲಸ"] := by decide
  refine ⟨hw, ?_⟩
  rw [hw]
  unfold assign_frequencies
  rw [if_neg (by decide), if_neg (by decide)]
  norm_num [pyRound, List.range_succ]

/-! ## Claim C4: endpoint frequencies -/

/-- C4 (counterexample): with start_frequency 0 and min_frequency 10 on
a two-word list, the first assigned frequency is 10 (the clamp
`max(minimum, freq)`), not the start_frequency 0 — refuting the claim
that the first position receives start_frequency for all integer
parameters. -/
theorem assign_first_not_start_cex :
    (assign_frequencies ["ಮನೆ", "ಕೆಲಸ"] 0 10).head? = some 10 ∧ (10 : ℤ) ≠ 0 := by
  constructor
  · unfold assign_frequencies
    rw [if_neg (by decide), if_neg (by decide)]
    norm_num [pyRound, List.range_succ]
  · decide

/-- C4 (amended): whenever min_frequency ≤ start_frequency, the first
output position receives start_frequency and the last receives
min_frequency when the sequence has more than one word; a single-word
sequence receives start_frequency. -/
theorem assign_endpoints (words : List String) (start minimum : ℤ)
    (hne : words ≠ []) (hms : minimum ≤ start) :
    (assign_frequencies words start minimum).head? = some start ∧
    (assign_frequencies words start minimum).getLast? =
      some (if words.length = 1 then start else minimum) := by
  by_cases hlen : words.length = 1
  · unfold assign_frequencies
    simp only [if_neg hne, if_pos hlen]
    exact ⟨rfl, rfl⟩
  · have hpos : 0 < words.length := List.length_pos.mpr hne
    unfold assign_frequencies
    simp only [if_neg hne, if_neg hlen]
    rw [head?_map_range _ _ hpos, getLast?_map_range _ _ hpos]
    constructor
    · have h0 : max minimum (pyRound ((start : ℚ) -
          (((0 : ℕ) : ℚ) / ((words.length - 1 : ℕ) : ℚ)) * ((start : ℚ) - (minimum : ℚ))))
          = start := by
        rw [Nat.cast_zero, zero_div, zero_mul, sub_zero, pyRound_intCast, max_eq_right hms]
      exact congrArg some h0
    · have hnz : ((words.length - 1 : ℕ) : ℚ) ≠ 0 := Nat.cast_ne_zero.mpr (by omega)
      have h1 : max minimum (pyRound ((start : ℚ) -
          (((words.length - 1 : ℕ) : ℚ) / ((words.length - 1 : ℕ) : ℚ)) *
            ((start : ℚ) - (minimum : ℚ)))) = minimum := by
        rw [div_self hnz, one_mul, sub_sub_cancel, pyRound_intCast, max_self]
      exact congrArg some h1

/-- Witness for `assign_endpoints` at a concrete two-word input. -/
theorem assign_endpoints_witness :
    ((["ಮನೆ", "ಕೆಲಸ"] : List String) ≠ [] ∧ (10 : ℤ) ≤ 100) ∧
    ((assign_frequencies ["ಮನೆ", "ಕೆಲಸ"] 100 10).head? = some 100 ∧
      (assign_frequencies ["ಮನೆ", "ಕೆಲಸ"] 100 10).getLast? =
        some (if (["ಮನೆ", "ಕೆಲಸ"] : List String).length = 1 then 100 else 10)) :=
  ⟨⟨by decide, by decide⟩, assign_endpoints ["ಮನೆ", "ಕೆಲಸ"] 100 10 (by decide) (by decide)⟩

/-! ## Claim C5: frequencies are non-increasing -/

/-- C5 (confirmed): for every word sequence of length greater than 1
and all integer start and minimum parameters, the assigned frequencies
(the clamped rounded interpolation values) are non-increasing in
emission order. -/
theorem assign_frequencies_antitone (words : List String) (start minimum : ℤ)
    (h : 1 < words.length) :
    (assign_frequencies words start minimum).Pairwise (fun a b => b ≤ a) := by
  have hne : words ≠ [] := by
    intro he
    rw [he] at h
    simp at h
  have hlen : ¬ words.length = 1 := by omega
  unfold assign_frequencies
  simp only [if_neg hne, if_neg hlen]
  rw [List.pairwise_map]
  refine (List.pairwise_lt_range words.length).imp_of_mem ?_
  intro i j hi hj hij
  have hd : 0 < words.length - 1 := by omega
  have hjd : j ≤ words.length - 1 := by
    have := List.mem_range.mp hj
    omega
  exact interp_step_antitone start minimum (words.length - 1) hd (le_of_lt hij) hjd

/-- Witness for `assign_frequencies_antitone` at a concrete input. -/
theorem assign_frequencies_antitone_witness :
    1 < (["ಮನೆ", "ಕೆಲಸ"] : List String).length ∧
    (assign_frequencies ["ಮನೆ", "ಕೆಲಸ"] 5000 200).Pairwise (fun a b => b ≤ a) :=
  ⟨by decide, assign_frequencies_antitone ["ಮನೆ", "ಕೆಲಸ"] 5000 200 (by decide)⟩

/-! ## Claim C1: seed_limit = 0 -/

/-- C1 (counterexample): with a non-empty validated seed list (the
cleaned line "ಅಬ 5" yields the word ಅಬ) and seed_limit 0, the pinned
seed prefix is empty — and with an empty source the whole output is
empty — rather than the entire validated list being pinned. -/
theorem seed_limit_zero_cex :
    clean_existing_words ["ಅಬ 5"] = ["ಅಬ"] ∧
    mainSeedWords ⟨10, 2, 16, 5000, 200, 0⟩ (clean_existing_words ["ಅಬ 5"]) = [] ∧
    mainTotalWords ⟨10, 2, 16, 5000, 200, 0⟩ [] ["ಅಬ 5"] = [] := by
  refine ⟨?_, ?_, ?_⟩ <;> decide

/-- C1 (amended): when seed_limit is 0 the slice `existing[:0]` is
empty, so pinning is disabled entirely: no existing words are pinned
and the output is exactly the ranked list (with an empty banned set)
truncated to target_count. -/
theorem seed_limit_zero_disables_pinning (cfg : Config) (counter : List (String × Nat))
    (existing : List String) (h : cfg.seed_limit = 0) :
    mainSeedWords cfg existing = [] ∧
    mainWords cfg counter existing =
      pySliceTo cfg.target_count
        (filter_ranked_words counter [] (max cfg.target_count 0)
          cfg.min_length cfg.max_length) := by
  have hseed : mainSeedWords cfg existing = [] := by
    unfold mainSeedWords pySliceTo
    rw [h]
    simp
  refine ⟨hseed, ?_⟩
  have hset : mainSeedSet cfg existing = [] := by
    unfold mainSeedSet
    rw [hseed]
    rfl
  have hkeep : mainKeep cfg existing = max cfg.target_count 0 := by
    unfold mainKeep
    rw [hset]
    simp
  unfold mainWords mainRanked
  rw [hseed, hset, hkeep, List.nil_append]
  congr 1
  apply List.filter_eq_self.mpr
  intro a _
  simp

/-- Witness for `seed_limit_zero_disables_pinning` at concrete inputs. -/
theorem seed_limit_zero_disables_pinning_witness :
    (⟨10, 2, 16, 5000, 200, 0⟩ : Config).seed_limit = 0 ∧
    (mainSeedWords ⟨10, 2, 16, 5000, 200, 0⟩ ["ಅಬ"] = [] ∧
      mainWords ⟨10, 2, 16, 5000, 200, 0⟩ [("ಮನೆ", 5)] ["ಅಬ"] =
        pySliceTo 10 (filter_ranked_words [("ಮನೆ", 5)] [] (max 10 0) 2 16)) :=
  ⟨rfl, seed_limit_zero_disables_pinning ⟨10, 2, 16, 5000, 200, 0⟩ [("ಮನೆ", 5)] ["ಅಬ"] rfl⟩

/-! ## Claim C2: the ranker quota -/

/-- C2 (counterexample): with target_count 5, min_length 3, seed_limit 1
and the cleaned seed list [ಅಬ] (one word of length 2), the quota handed
to the ranker is 5, while max(target_count - len(seed_prefix), 0) = 4 —
the word ಅಬ is pinned but, being shorter than min_length, does not
reduce the quota. -/
theorem ranker_quota_cex :
    mainKeep ⟨5, 3, 16, 100, 10, 1⟩ (clean_existing_words ["ಅಬ 5"]) = 5 ∧
    ((mainSeedWords ⟨5, 3, 16, 100, 10, 1⟩ (clean_existing_words ["ಅಬ 5"])).length : Int) = 1 ∧
    (5 : Int) ≠ max (5 - 1) 0 := by
  refine ⟨?_, ?_, ?_⟩ <;> decide

/-- C2 (amended): the number of ranked candidates requested from the
ranker equals max(target_count - n, 0) where n counts the seed-prefix
words whose length meets min_length (seed words shorter than min_length
are pinned but do not reduce the quota). -/
theorem ranker_quota_eq (cfg : Config) (seedLines : List String) :
    mainKeep cfg (clean_existing_words seedLines) =
      max (cfg.target_count -
        (((mainSeedWords cfg (clean_existing_words seedLines)).filter
          (fun w => decide (cfg.min_length ≤ (w.length : Int)))).length : Int)) 0 := by
  have hnd : ((mainSeedWords cfg (clean_existing_words seedLines)).filter
      (fun w => decide (cfg.min_length ≤ (w.length : Int)))).Nodup := by
    refine (List.filter_sublist _).nodup ?_
    refine (pySliceTo_sublist _ _).nodup ?_
    exact clean_existing_words_nodup seedLines
  unfold mainKeep mainSeedSet
  rw [List.Nodup.dedup hnd]

/-! ## Claim C8: output length bounded by target_count -/

/-- C8 (confirmed): for every configuration with a nonnegative
target_count and all counter and seed inputs, the final word sequence
holds at most target_count words. -/
theorem output_length_le_target (cfg : Config) (counter : List (String × Nat))
    (existing : List String) (h : 0 ≤ cfg.target_count) :
    ((mainWords cfg counter existing).length : Int) ≤ cfg.target_count := by
  unfold mainWords pySliceTo
  rw [if_pos h]
  have h1 := List.length_take_le cfg.target_count.toNat
    (mainSeedWords cfg existing ++
      (mainRanked cfg counter existing).filter
        (fun w => decide (w ∉ mainSeedSet cfg existing)))
  have h2 := Int.toNat_of_nonneg h
  omega

/-- Witness for `output_length_le_target` at concrete inputs. -/
theorem output_length_le_target_witness :
    (0 : Int) ≤ (⟨2, 2, 16, 100, 10, 600⟩ : Config).target_count ∧
    ((mainWords ⟨2, 2, 16, 100, 10, 600⟩ [("ಮನೆ", 5)] []).length : Int) ≤ 2 :=
  ⟨by decide, output_length_le_target ⟨2, 2, 16, 100, 10, 600⟩ [("ಮನೆ", 5)] [] (by decide)⟩

/-! ## Claim C10: YAML quote stripping -/

/-- C10 (confirmed): whenever a captured value starts with either quote
character and ends with either quote character — the two may differ —
`extract_word` removes exactly the first and last characters before the
whitespace strip, zero-width-mark removal and leading-run extraction. -/
theorem yaml_quotes_stripped (q1 q2 : Char) (inner : List Char)
    (h1 : (q1 == squote || q1 == dquote) = true)
    (h2 : (q2 == squote || q2 == dquote) = true) :
    extract_word (String.mk (q1 :: (inner ++ [q2]))) = postQuoteProcess inner := by
  have hs : startsQuote (q1 :: (inner ++ [q2])) = true := by
    unfold startsQuote
    simpa using h1
  have he : endsQuote (q1 :: (inner ++ [q2])) = true := by
    unfold endsQuote
    rw [show q1 :: (inner ++ [q2]) = (q1 :: inner) ++ [q2] from rfl, List.getLast?_concat]
    simpa using h2
  unfold extract_word stripYamlQuotes
  rw [show (String.mk (q1 :: (inner ++ [q2]))).data = q1 :: (inner ++ [q2]) from rfl]
  rw [if_pos (by rw [hs, he]; rfl)]
  rw [show ((q1 :: (inner ++ [q2])).drop 1) = inner ++ [q2] from rfl, List.dropLast_concat]

/-- Witness for `yaml_quotes_stripped`: a value wrapped in a single
quote on the left and a double quote on the right. -/
theorem yaml_quotes_stripped_witness :
    ((squote == squote || squote == dquote) = true ∧
      (dquote == squote || dquote == dquote) = true) ∧
    extract_word (String.mk (squote :: ("ಮನೆ".data ++ [dquote]))) =
      postQuoteProcess "ಮನೆ".data :=
  ⟨⟨by decide, by decide⟩, yaml_quotes_stripped squote dquote "ಮನೆ".data (by decide) (by decide)⟩

/-! ## Claim C9: short leading runs are skipped -/

/-- C9 (counterexample): the matched line `entry: 'ಮನೆ'` has a captured
value whose longest leading run of Kannada characters is empty (it
starts with a quote), yet the extractor yields the token ಮನೆ rather
than nothing — the leading-run condition is tested only after quote
stripping and normalisation, not on the captured value itself. -/
theorem captured_run_cex :
    matchEntry quotedLine = some quotedValue ∧
    (quotedValue.data.takeWhile isKannada).length < 2 ∧
    extract_word quotedValue = some "ಮನೆ" := by
  refine ⟨?_, ?_, ?_⟩ <;> decide

/-- C9 (amended): for every line matching the entry pattern whose
captured value — after quote stripping, whitespace stripping and
zero-width-mark removal — has a longest leading run of Kannada
characters shorter than 2, the extractor yields no token and the
counter is left exactly as if the line were absent (the record is
silently skipped, never an error). -/
theorem short_leading_run_skipped (pre post : List String) (line v : String)
    (hm : matchEntry line = some v)
    (hrun : ((removeZeroWidth (pyStrip (stripYamlQuotes v.data))).takeWhile isKannada).length < 2) :
    extract_word v = none ∧
    load_word_counts (pre ++ line :: post) = load_word_counts (pre ++ post) := by
  have hext : extract_word v = none := by
    unfold extract_word postQuoteProcess
    by_cases hre : removeZeroWidth (pyStrip (stripYamlQuotes v.data)) = []
    · rw [if_pos hre]
    · rw [if_neg hre, if_pos ?hlt]
      case hlt =>
        have := pyStrip_length_le
          ((removeZeroWidth (pyStrip (stripYamlQuotes v.data))).takeWhile isKannada)
        omega
  refine ⟨hext, ?_⟩
  have hstep : ∀ c, countStep c line = c := by
    intro c
    unfold countStep
    rw [hm]
    show (match extract_word v with
          | none => c
          | some w => bump c w) = c
    rw [hext]
  show (pre ++ line :: post).foldl countStep [] = (pre ++ post).foldl countStep []
  rw [List.foldl_append, List.foldl_append, List.foldl_cons, hstep]

/-- Witness for `short_leading_run_skipped`: the line `entry: x` is
matched, yields no token, and leaves the counter unchanged. -/
theorem short_leading_run_skipped_witness :
    (matchEntry "entry: x" = some "x" ∧
      ((removeZeroWidth (pyStrip (stripYamlQuotes ("x" : String).data))).takeWhile
        isKannada).length < 2) ∧
    (extract_word "x" = none ∧
      load_word_counts (["entry: ಮನೆ"] ++ "entry: x" :: ["entry: ಅಬ"]) =
        load_word_counts (["entry: ಮನೆ"] ++ ["entry: ಅಬ"])) :=
  ⟨⟨by decide, by decide⟩,
    short_leading_run_skipped ["entry: ಮನೆ"] ["entry: ಅಬ"] "entry: x" "x" (by decide) (by decide)⟩

/-! ## Claim C7: write failure behaviour -/

/-- C7 (counterexample): if the destination previously held `# old` and
the failure hits after the file was opened but before the first chunk
is written, the destination is left empty — the prior output file is
not left untouched, because `open(path, "w")` truncates it before any
writing happens. -/
theorem write_partial_cex :
    runWrite "# old" (writeChunks ["ಮನೆ"] [100] 1) (some 1) = ("", false) ∧
    ("" : String) ≠ "# old" :=
  ⟨rfl, by decide⟩

/-- C7 (amended): the full result is assembled in memory before writing
begins, but it is written incrementally: if opening the destination
fails the prior file is untouched and the error is surfaced; if a write
fails after opening, the error is still surfaced but the destination is
left holding a (possibly empty) prefix of the intended output, so a
partial output file can be produced. -/
theorem write_failure_behavior (prior : String) (words : List String) (freqs : List Int)
    (total : Nat) (j : Nat) :
    runWrite prior (writeChunks words freqs total) (some 0) = (prior, false) ∧
    runWrite prior (writeChunks words freqs total) (some (j + 1)) =
      (String.join ((writeChunks words freqs total).take j), false) ∧
    (∃ rest, String.join (writeChunks words freqs total) =
      String.join ((writeChunks words freqs total).take j) ++ rest) ∧
    runWrite prior (writeChunks words freqs total) none =
      (String.join (writeChunks words freqs total), true) := by
  refine ⟨rfl, rfl, ⟨String.join ((writeChunks words freqs total).drop j), ?_⟩, rfl⟩
  rw [← string_join_append, List.take_append_drop]

/-! ## Claim C6: all output words are pairwise distinct -/

/-- Bumping a key leaves the key sequence unchanged when the key
already exists, and appends the key otherwise. -/
theorem bump_fst (c : List (String × Nat)) (w : String) :
    (bump c w).map Prod.fst =
      if w ∈ c.map Prod.fst then c.map Prod.fst else c.map Prod.fst ++ [w] := by
  unfold bump
  split_ifs with hw
  · rw [List.map_map]
    congr 1
    funext p
    by_cases hp : p.1 = w <;> simp [Function.comp, hp]
  · simp

/-- Bumping preserves distinctness of the counter's keys. -/
theorem bump_fst_nodup {c : List (String × Nat)} (h : (c.map Prod.fst).Nodup) (w : String) :
    ((bump c w).map Prod.fst).Nodup := by
  rw [bump_fst]
  split_ifs with hw
  · exact h
  · refine List.Nodup.append h (List.nodup_singleton w) ?_
    intro a ha hmem
    rw [List.mem_singleton] at hmem
    exact hw (hmem ▸ ha)

/-- The occurrence counter built from the source lines has pairwise
distinct keys. -/
theorem load_word_counts_fst_nodup (lines : List String) :
    ((load_word_counts lines).map Prod.fst).Nodup := by
  unfold load_word_counts
  suffices h : ∀ c : List (String × Nat), (c.map Prod.fst).Nodup →
      ((lines.foldl countStep c).map Prod.fst).Nodup by
    exact h [] (by simp)
  induction lines with
  | nil =>
    intro c hc
    exact hc
  | cons line rest ih =>
    intro c hc
    rw [List.foldl_cons]
    refine ih _ ?_
    unfold countStep
    cases matchEntry line with
    | none => exact hc
    | some v =>
      show (((match extract_word v with
              | none => c
              | some w => bump c w) : List (String × Nat)).map Prod.fst).Nodup
      cases extract_word v with
      | none => exact hc
      | some w => exact bump_fst_nodup hc w

/-- Every word produced by the ranker avoids the banned set and meets
the length floor. -/
theorem filter_ranked_words_mem {counter : List (String × Nat)} {banned : List String}
    {keep min_len max_len : Int} {w : String}
    (hw : w ∈ filter_ranked_words counter banned keep min_len max_len) :
    w ∉ banned ∧ min_len ≤ (w.length : Int) := by
  unfold filter_ranked_words at hw
  obtain ⟨p, hp, rfl⟩ := List.mem_map.mp hw
  have hp2 := (pySliceTo_sublist _ _).subset hp
  rw [(List.perm_insertionSort _ _).mem_iff] at hp2
  have hprop := of_decide_eq_true (List.mem_filter.mp hp2).2
  exact ⟨hprop.1, hprop.2.1⟩

/-- The ranker's output has no duplicates whenever the counter's keys
are distinct. -/
theorem filter_ranked_words_nodup (counter : List (String × Nat)) (banned : List String)
    (keep min_len max_len : Int) (h : (counter.map Prod.fst).Nodup) :
    (filter_ranked_words counter banned keep min_len max_len).Nodup := by
  unfold filter_ranked_words
  refine ((pySliceTo_sublist _ _).map Prod.fst).nodup ?_
  refine (((List.perm_insertionSort _ _).map Prod.fst).nodup_iff).mpr ?_
  exact (List.Sublist.map Prod.fst (List.filter_sublist _)).nodup h

/-- C6 (confirmed): for every configuration, source text and seed file
content, the words of the final output sequence are pairwise distinct:
the cleaned seed prefix is deduplicated, the ranked words are distinct
counter keys, and a ranked word can never equal a pinned seed word (a
shared word of length ≥ min_length would be in the banned seed set,
while a seed word shorter than min_length cannot pass the ranker's
length filter). -/
theorem output_words_nodup (cfg : Config) (srcLines seedLines : List String) :
    (mainTotalWords cfg srcLines seedLines).Nodup := by
  unfold mainTotalWords mainWords
  refine (pySliceTo_sublist _ _).nodup ?_
  have hexnd : (clean_existing_words seedLines).Nodup := clean_existing_words_nodup seedLines
  have hseednd : (mainSeedWords cfg (clean_existing_words seedLines)).Nodup :=
    (pySliceTo_sublist _ _).nodup hexnd
  have hcnt : ((load_word_counts srcLines).map Prod.fst).Nodup :=
    load_word_counts_fst_nodup srcLines
  have hrankednd :
      (mainRanked cfg (load_word_counts srcLines) (clean_existing_words seedLines)).Nodup :=
    filter_ranked_words_nodup _ _ _ _ _ hcnt
  refine List.Nodup.append hseednd ((List.filter_sublist _).nodup hrankednd) ?_
  intro w hws hwr
  have hwr2 : w ∈ mainRanked cfg (load_word_counts srcLines) (clean_existing_words seedLines) :=
    (List.filter_sublist _).subset hwr
  obtain ⟨hnotban, hlen⟩ := filter_ranked_words_mem hwr2
  apply hnotban
  unfold mainSeedSet
  rw [List.mem_dedup, List.mem_filter]
  exact ⟨hws, decide_eq_true hlen⟩
